import Mathlib

/-!
Shallow embedding of `src/python/thunder/rdds/images.py` (the `Images`
distributed collection and its blocking pipeline) together with the parts of
the blocking-strategy machinery it drives.  The RDD backing an `Images`
collection is modelled as a Lean list of key/array records; Spark
transformations become list operations (`flatMap`, a deterministic
`groupBy`, an explicit sort, `map`); Python exceptions become `Except`
errors; numpy arrays become flat row-major buffers with an explicit shape.
The blocking-strategy classes (`thunder.rdds.imgblocks.strategy`) are not
part of the source set, so their behaviour is modelled from the spec where a
definition says so in its doc comment.
-/

/-- Exceptions raised by the embedded code.  Each constructor models one
raise site: `typeSpecError` for an unrecognized blockSizeSpec,
`incompleteBlockError` for a short spatial group at combine time,
`noRecords` for probing the first record of an empty RDD,
`valueError` for a non-positive subsampling factor,
`indexError` for deleting an out-of-range axis from a Python list,
`projectionAxisError` for the explicit axis check in maxProjection, and
`nameError` for the undefined local filter function on data that is
neither 2-D nor 3-D. -/
inductive Err where
  | typeSpecError
  | incompleteBlockError
  | noRecords
  | valueError
  | indexError
  | projectionAxisError
  | nameError
  deriving DecidableEq, Repr

deriving instance DecidableEq for Except

/-! ## List machinery modelling the Spark primitives -/

/-- Insertion into a list sorted by the Boolean comparison `le`.
Together with `sortByB` this models Spark sortBy: since sortBy is applied
below only to lists with pairwise distinct sort keys, any correct sorting
algorithm yields the same list, so the choice of insertion sort is
immaterial. -/
def insSorted (le : α → α → Bool) (a : α) : List α → List α
  | [] => [a]
  | b :: bs => if le a b then a :: b :: bs else b :: insSorted le a bs

/-- Sort a list by the Boolean comparison `le` (models `RDD.sortBy`). -/
def sortByB (le : α → α → Bool) : List α → List α
  | [] => []
  | a :: as => insSorted le a (sortByB le as)

/-- Add one element to the group belonging to key `k`, creating the group at
the end when the key is new. -/
def insGroup [DecidableEq κ] (k : κ) (a : α) : List (κ × List α) → List (κ × List α)
  | [] => [(k, [a])]
  | g :: gs => if g.1 = k then (g.1, g.2 ++ [a]) :: gs else g :: insGroup k a gs

/-- Group the elements of a list by a derived key (models `RDD.groupBy`):
one group per distinct key, holding all elements with that key in encounter
order.  Spark leaves the order of the groups unspecified; this deterministic
model lists keys in first-occurrence order, one of the admissible outcomes,
and the pipeline sorts the groups immediately afterwards anyway. -/
def groupByKey [DecidableEq κ] (f : α → κ) (xs : List α) : List (κ × List α) :=
  xs.foldl (fun gs a => insGroup (f a) a gs) []

/-- Effectful map over `Except` (models `RDD.map` with a task function that
may raise: the first raised error aborts the whole job, exactly as a failed
Spark stage aborts the action). -/
def mapME (f : α → Except ε β) : List α → Except ε (List β)
  | [] => .ok []
  | a :: as =>
    match f a with
    | .error e => .error e
    | .ok b =>
      match mapME f as with
      | .error e => .error e
      | .ok bs => .ok (b :: bs)

/-- Python tuple comparison (lexicographic `<=`) on tuples of naturals. -/
def tupLe : List Nat → List Nat → Bool
  | [], _ => true
  | _ :: _, [] => false
  | a :: as, b :: bs => if a < b then true else if b < a then false else tupLe as bs

/-! ## numpy arrays -/

/-- Dense N-D numeric array: a dtype name, a shape, and a flat row-major
data buffer. -/
structure NDArr where
  dtype : String
  shape : List Nat
  data : List Int
  deriving DecidableEq, Repr

instance : Inhabited NDArr := ⟨{ dtype := "", shape := [], data := [] }⟩

/-- Row-major flat offset of a multi-index into an array of the given shape. -/
def rowMajorIndex : List Nat → List Nat → Nat
  | _ :: ss, i :: is => i * ss.prod + rowMajorIndex ss is
  | _, _ => 0

/-- Element of an array at a multi-index (0 when out of range, which the
embedded code never relies on for well-formed inputs). -/
def NDArr.get (a : NDArr) (idx : List Nat) : Int :=
  a.data.getD (rowMajorIndex a.shape idx) 0

/-- All multi-indices of a shape, in row-major enumeration order. -/
def multiIndices : List Nat → List (List Nat)
  | [] => [[]]
  | s :: ss => (List.range s).flatMap fun i => (multiIndices ss).map fun is => i :: is

/-- Slice an array to the hyper-rectangle given by per-axis `(start, stop)`
ranges (numpy basic slicing `a[s0:t0, s1:t1, ...]`). -/
def NDArr.sliceRanges (a : NDArr) (rs : List (Nat × Nat)) : NDArr :=
  let shape := rs.map fun r => r.2 - r.1
  { dtype := a.dtype, shape := shape,
    data := (multiIndices shape).map fun idx => a.get ((rs.zip idx).map fun p => p.1.1 + p.2) }

/-- Length of the numpy strided slice `slice(0, size, step)`. -/
def numpySliceLen (size step : Nat) : Nat := (size + step - 1) / step

/-- Strided slice `a[::f0, ::f1, ...]` with one positive stride per axis
(numpy semantics: the new axis length is the ceiling of size over stride). -/
def NDArr.strideSlice (a : NDArr) (fs : List Nat) : NDArr :=
  let shape := (a.shape.zip fs).map fun p => numpySliceLen p.1 p.2
  { dtype := a.dtype, shape := shape,
    data := (multiIndices shape).map fun idx => a.get ((idx.zip fs).map fun p => p.1 * p.2) }

/-- Insert coordinate `j` for axis `axis` into a multi-index over the
remaining axes. -/
def insertAt (axis j : Nat) (idx : List Nat) : List Nat :=
  idx.take axis ++ j :: idx.drop axis

/-- Reduce an array along one axis with a binary fold (models
`numpy.amax` / `numpy.amin` along an axis; the reduced axis disappears from
the shape). -/
def reduceAlong (f : Int → Int → Int) (a : NDArr) (axis : Nat) : NDArr :=
  let newShape := a.shape.eraseIdx axis
  let n := a.shape.getD axis 0
  { dtype := a.dtype, shape := newShape,
    data := (multiIndices newShape).map fun idx =>
      match (List.range n).map (fun j => a.get (insertAt axis j idx)) with
      | [] => 0
      | v :: vs => vs.foldl f v }

/-- `numpy.amax` along an axis. -/
def amaxAlong (a : NDArr) (axis : Nat) : NDArr := reduceAlong max a axis

/-- `amax(x, axis) + amin(x, axis)`, the per-record function of
maxminProjection. -/
def amaxminAlong (a : NDArr) (axis : Nat) : NDArr :=
  let mx := reduceAlong max a axis
  let mn := reduceAlong min a axis
  { dtype := mx.dtype, shape := mx.shape,
    data := (mx.data.zip mn.data).map fun p => p.1 + p.2 }

/-! ## The Images collection -/

/-- The `Images` collection: an RDD of `(key, array)` records plus the three
lazily populated metadata caches `_dims`, `_nimages` and `_dtype` (the last
inherited from the `Data` superclass).  Image keys are modelled as integer
image indices. -/
structure Images where
  rdd : List (Nat × NDArr)
  _dims : Option (List Nat) := none
  _nimages : Option Nat := none
  _dtype : Option String := none
  deriving DecidableEq, Repr

/-- `Images.populateParamsFromFirstRecord`: retrieve one record (Spark
`rdd.first()`, an error on an empty RDD) and fill the `_dims` and `_dtype`
caches from it. -/
def Images.populateParamsFromFirstRecord (im : Images) :
    Except Err ((Nat × NDArr) × Images) :=
  match im.rdd.head? with
  | none => .error .noRecords
  | some r => .ok (r, { im with _dims := some r.2.shape, _dtype := some r.2.dtype })

/-- The `dims` property: return the cached value, or populate it from the
first record.  Returns the value together with the collection carrying the
updated caches. -/
def Images.dimsGet (im : Images) : Except Err (List Nat × Images) :=
  match im._dims with
  | some d => .ok (d, im)
  | none => (im.populateParamsFromFirstRecord).map fun p => (p.1.2.shape, p.2)

/-- The `dtype` property (defined on the `Data` superclass): return the
cached value, or populate it from the first record. -/
def Images.dtypeGet (im : Images) : Except Err (String × Images) :=
  match im._dtype with
  | some t => .ok (t, im)
  | none => (im.populateParamsFromFirstRecord).map fun p => (p.1.2.dtype, p.2)

/-- The `nimages` property: count the records when the cache is empty and
remember the count.  The third component records whether `rdd.count()` was
actually executed by this read. -/
def Images.nimagesGet (im : Images) : Nat × Images × Bool :=
  match im._nimages with
  | some n => (n, im, false)
  | none => (im.rdd.length, { im with _nimages := some im.rdd.length }, true)

/-- `Images._resetCounts`: clear the cached record count. -/
def Images._resetCounts (im : Images) : Images :=
  { im with _nimages := none }

/-- Value of the `nimages` property, without threading the cache update. -/
def Images.nimagesVal (im : Images) : Nat :=
  im._nimages.getD im.rdd.length

/-! ## Blocking strategies

The strategy classes live in `thunder.rdds.imgblocks.strategy`, outside the
source set; the definitions in this section are modelled from the spec
(sections 4.2 and 4.3) as a closed set of tagged variants carrying their
configuration, with the split and combine behaviour derived from that data
at binding time. -/

/-- The two strategy variants: `SimpleBlockingStrategy` (exact tiling) and
`PaddedBlockingStrategy` (halo-extended chunks). -/
inductive StratVariant where
  | simple
  | padded
  deriving DecidableEq, Repr

/-- The Blocks subclass produced by each strategy variant
(`BlockingStrategy.getBlocksClass`). -/
inductive BlocksClass where
  | simpleBlocks
  | paddedBlocks
  deriving DecidableEq, Repr

/-- The Python `padding` argument of `toBlocks`: a plain integer or a
per-axis tuple of integers. -/
inductive Padding where
  | int : Int → Padding
  | tup : List Int → Padding
  deriving DecidableEq, Repr

/-- Python truthiness of a `padding` value, as tested by
`not padding` on line 87 of images.py: an integer is truthy iff nonzero,
and a tuple is truthy iff non-empty (regardless of its entries). -/
def Padding.pyTruthy : Padding → Bool
  | .int n => n != 0
  | .tup l => !l.isEmpty

/-- Normalized per-axis padding amounts for a collection of the given rank
(spec: padding is a non-negative integer applied to every axis, or a
per-axis tuple of non-negative integers). -/
def Padding.normalize (p : Padding) (rank : Nat) : List Nat :=
  match p with
  | .int n => List.replicate rank n.toNat
  | .tup l => (l.map Int.toNat).take rank ++ List.replicate (rank - l.length) 0

/-- Modelled from the spec: an unbound blocking strategy is its variant tag,
its per-axis split counts and its padding configuration (design note in the
spec: a small closed set of tagged variants carrying the padding
configuration). -/
structure BlockingStrategy where
  variant : StratVariant
  splitsPerDim : List Nat
  padding : Padding
  deriving DecidableEq, Repr

/-- The spatial key paired with the originating image key, used to tell
fragments of the same spatial chunk apart during grouping (the
PartitioningKey of the spec; the pipeline reads its `spatialKey` field when
grouping). -/
structure PartitioningKey where
  spatialKey : List Nat
  imgKey : Nat
  deriving DecidableEq, Repr

/-- One output block: the spatial origin and extents of its chunk plus the
stacked array whose new leading axis runs over the source images in
ascending image-key order. -/
structure BlockRecord where
  spatialKey : List Nat
  origin : List Nat
  extent : List Nat
  paddedExtent : List Nat
  arr : NDArr
  deriving DecidableEq, Repr

/-- Metadata a strategy records from the reference Images collection when it
is bound (`BlockingStrategy.setImages`). -/
structure ImagesMeta where
  dims : List Nat
  nimages : Nat
  dtype : String
  deriving DecidableEq, Repr

/-- Byte size of one element of the named dtype (8 for the numpy default
float64 and anything unrecognized). -/
def dtypeBytes : String → Nat
  | "bool" => 1
  | "uint8" => 1
  | "int8" => 1
  | "uint16" => 2
  | "int16" => 2
  | "uint32" => 4
  | "int32" => 4
  | "float32" => 4
  | _ => 8

def ImagesMeta.elemBytes (m : ImagesMeta) : Nat := dtypeBytes m.dtype

/-- Modelled from the spec (4.2): divide `axisSize` into `splitCount`
nearly-equal contiguous ranges; when the division is uneven the first
`axisSize mod splitCount` ranges get one extra element. -/
def computeBoundaries (axisSize splitCount : Nat) : List (Nat × Nat) :=
  let base := axisSize / splitCount
  let extra := axisSize % splitCount
  (List.range splitCount).map fun i =>
    let start := i * base + min i extra
    (start, start + base + if i < extra then 1 else 0)

/-- Current per-axis chunk extent (rounded up) for a candidate split count. -/
def chunkExt (shape splits : List Nat) (i : Nat) : Nat :=
  (shape.getD i 1 + splits.getD i 1 - 1) / splits.getD i 1

/-- Average chunk byte size of one image under the candidate split counts. -/
def avgChunkBytes (shape splits : List Nat) (elemBytes : Nat) : Nat :=
  shape.prod * elemBytes / splits.prod

/-- Axis whose current chunk extent is largest among the axes that are not
yet fully split, if any. -/
def bestAxis (shape splits : List Nat) : Option Nat :=
  ((List.range shape.length).filter fun i => splits.getD i 1 < shape.getD i 1).foldl
    (fun best i =>
      match best with
      | none => some i
      | some j => if chunkExt shape splits i > chunkExt shape splits j then some i else some j)
    none

/-- Modelled from the spec (4.2): from single splits on every axis, greedily
increase the split count of the axis with the largest chunk extent until the
projected average chunk size fits the byte budget or every axis is fully
split.  The fuel argument bounds the loop; `sum shape` increments always
suffice. -/
def computeSplitsFromBudget (fuel : Nat) (shape : List Nat) (elemBytes budget : Nat)
    (splits : List Nat) : List Nat :=
  match fuel with
  | 0 => splits
  | fuel + 1 =>
    if avgChunkBytes shape splits elemBytes ≤ budget then splits
    else
      match bestAxis shape splits with
      | none => splits
      | some i => computeSplitsFromBudget fuel shape elemBytes budget
          (splits.set i (splits.getD i 1 + 1))

/-- A strategy bound to a reference collection: the concrete per-axis chunk
boundaries, padding amounts, and the collection metadata that the split,
combine and size-estimation functions close over. -/
structure BoundStrategy where
  variant : StratVariant
  coreRanges : List (List (Nat × Nat))
  padAmounts : List Nat
  dims : List Nat
  nimages : Nat
  elemBytes : Nat
  deriving DecidableEq, Repr

/-- Modelled from the spec (4.3, `bind`): record dims, dtype element size
and nimages from the reference collection and compute the concrete per-axis
boundaries; the simple variant has no halo, the padded variant normalizes
its configured padding to one amount per axis. -/
def BlockingStrategy.bind (s : BlockingStrategy) (m : ImagesMeta) : BoundStrategy :=
  { variant := s.variant,
    coreRanges := (m.dims.zip s.splitsPerDim).map fun p => computeBoundaries p.1 p.2,
    padAmounts :=
      match s.variant with
      | .simple => List.replicate m.dims.length 0
      | .padded => s.padding.normalize m.dims.length,
    dims := m.dims, nimages := m.nimages, elemBytes := m.elemBytes }

/-- All spatial keys of the tiling grid, one per combination of per-axis
boundary ranges. -/
def gridKeys (rss : List (List (Nat × Nat))) : List (List Nat) :=
  multiIndices (rss.map List.length)

/-- The exact (unpadded) chunk ranges for one spatial key. -/
def BoundStrategy.coreRangesFor (bs : BoundStrategy) (sk : List Nat) : List (Nat × Nat) :=
  (bs.coreRanges.zip sk).map fun p => p.1.getD p.2 (0, 0)

/-- The chunk ranges for one spatial key after extending each axis outward
by the padding amount, clamped to the array bounds (so edge chunks get
asymmetric or zero halo). -/
def BoundStrategy.paddedRangesFor (bs : BoundStrategy) (sk : List Nat) : List (Nat × Nat) :=
  ((bs.coreRangesFor sk).zip (bs.dims.zip bs.padAmounts)).map
    fun p => (p.1.1 - p.2.2, min p.2.1 (p.1.2 + p.2.2))

/-- Modelled from the spec (4.3, `split`): cut one image record into one
fragment per spatial chunk of the grid, tagging each fragment with the
partitioning key that pairs the chunk coordinate with the image key.  A
pure function of the record. -/
def BoundStrategy.blockingFunction (bs : BoundStrategy) (rec : Nat × NDArr) :
    List (PartitioningKey × NDArr) :=
  (gridKeys bs.coreRanges).map fun sk =>
    ({ spatialKey := sk, imgKey := rec.1 }, rec.2.sliceRanges (bs.paddedRangesFor sk))

/-- Modelled from the spec (4.3, `combine`): given all fragments of one
spatial key, check that every image contributed (else
`IncompleteBlockError`), sort the fragments by ascending image key and
stack them along a new leading axis, attaching origin and extents. -/
def BoundStrategy.combiningFunction (bs : BoundStrategy)
    (g : List Nat × List (PartitioningKey × NDArr)) : Except Err BlockRecord :=
  if g.2.length ≠ bs.nimages then .error .incompleteBlockError
  else
    let sorted := sortByB (fun f h => decide (f.1.imgKey ≤ h.1.imgKey)) g.2
    let core := bs.coreRangesFor g.1
    let padded := bs.paddedRangesFor g.1
    .ok { spatialKey := g.1,
          origin := core.map Prod.fst,
          extent := core.map fun r => r.2 - r.1,
          paddedExtent := padded.map fun r => r.2 - r.1,
          arr := { dtype := ((sorted.head?.map fun f => f.2.dtype).getD ""),
                   shape := bs.nimages :: padded.map fun r => r.2 - r.1,
                   data := (sorted.map fun f => f.2.data).flatten } }

/-- Modelled from the spec (4.3): estimated average block byte size, total
array bytes across all images divided by the number of spatial blocks. -/
def BoundStrategy.avgBlockSize (bs : BoundStrategy) : Nat :=
  bs.dims.prod * bs.elemBytes * bs.nimages / (bs.coreRanges.map List.length).prod

/-- The Blocks subclass the bound strategy produces
(`getBlocksClass`). -/
def BoundStrategy.blocksClass (bs : BoundStrategy) : BlocksClass :=
  match bs.variant with
  | .simple => .simpleBlocks
  | .padded => .paddedBlocks

/-! ## Strategy construction and dispatch in toBlocks -/

/-- The dynamic Python value passed as `blockSizeSpec`: a memory-size
string, an integer byte count, a tuple of integers, a pre-built
BlockingStrategy instance, or a value of any other type. -/
inductive BlockSizeSpec where
  | str : String → BlockSizeSpec
  | int : Int → BlockSizeSpec
  | tup : List Int → BlockSizeSpec
  | strat : BlockingStrategy → BlockSizeSpec
  | other : BlockSizeSpec
  deriving DecidableEq, Repr

/-- Modelled from the spec: a memory-size string such as 150M is a decimal
number with an optional K, M or G multiplier. -/
def parseMemStr (s : String) : Nat :=
  let digits := s.toList.takeWhile Char.isDigit
  let n := (String.mk digits).toNat?.getD 0
  match s.toList.dropWhile Char.isDigit with
  | [c] =>
    if c = 'K' then n * 1024
    else if c = 'M' then n * 1024 * 1024
    else if c = 'G' then n * 1024 * 1024 * 1024
    else n
  | _ => n

/-- Modelled from the spec: the strategy constructor called with a raw
blockSizeSpec validates that it is a per-axis tuple of positive integer
split counts; any other shape raises `TypeSpecError`, surfaced immediately
(no collection is touched). -/
def stratCtor (v : StratVariant) (spec : BlockSizeSpec) (padding : Padding) :
    Except Err BlockingStrategy :=
  match spec with
  | .tup t =>
    if t.all (fun x => 0 < x) then
      .ok { variant := v, splitsPerDim := t.map Int.toNat, padding := padding }
    else .error .typeSpecError
  | _ => .error .typeSpecError

/-- Per-record array shape, dtype and record count of the collection, read
through the lazy properties exactly as `self.dims`, `self.nimages` and
`self.dtype` read them (the cache updates are not threaded back because
`toBlocks` only consumes the values). -/
def Images.imagesMeta (im : Images) : Except Err ImagesMeta :=
  match im.dimsGet with
  | .error e => .error e
  | .ok (d, im₂) =>
    match im₂.dtypeGet with
    | .error e => .error e
    | .ok (t, im₃) => .ok { dims := d, nimages := im₃.nimagesVal, dtype := t }

/-- Modelled from the spec: `generateFromBlockSize` reads the reference
collection's shape and element size and computes per-axis split counts so
that the average chunk fits the requested byte budget, producing a strategy
of the requested variant. -/
def generateFromBlockSize (v : StratVariant) (im : Images) (budget : Nat)
    (padding : Padding) : Except Err BlockingStrategy :=
  (im.imagesMeta).map fun m =>
    { variant := v,
      splitsPerDim := computeSplitsFromBudget (m.dims.sum + 1) m.dims m.elemBytes budget
          (List.replicate m.dims.length 1),
      padding := padding }

/-- Line 87 of images.py: `SimpleBlockingStrategy if not padding else
PaddedBlockingStrategy`, with Python truthiness of the padding value. -/
def stratClassFor (padding : Padding) : StratVariant :=
  if !padding.pyTruthy then .simple else .padded

/-- Lines 86 to 94 of images.py: dispatch on the runtime type of
`blockSizeSpec`.  A BlockingStrategy instance is used as passed; a string or
integer goes through `generateFromBlockSize`; anything else is handed to the
strategy constructor, which accepts only a tuple of positive splits. -/
def pickStrategy (im : Images) (spec : BlockSizeSpec) (padding : Padding) :
    Except Err BlockingStrategy :=
  match spec with
  | .strat s => .ok s
  | .str s => generateFromBlockSize (stratClassFor padding) im (parseMemStr s) padding
  | .int n => generateFromBlockSize (stratClassFor padding) im n.toNat padding
  | rest => stratCtor (stratClassFor padding) rest padding

/-- Whether a blockSizeSpec value has one of the three recognized shapes: a
byte-budget string or integer, a tuple of positive split counts, or a
pre-built strategy instance. -/
def BlockSizeSpec.recognizedShape : BlockSizeSpec → Bool
  | .str _ => true
  | .int _ => true
  | .strat _ => true
  | .tup t => t.all fun x => 0 < x
  | .other => false

/-! ## The blocking pipeline -/

/-- Lines 104 to 107 of images.py: flat-map the strategy's splitting
function over the records, group the fragments by their spatial key, then
sort the groups by the reversed spatial-key tuple (the source comments:
the fastest changing dimension is first, so sort reversed keys; the sort
must come after the group because the group messes with ordering). -/
def blockGroups (bound : BoundStrategy) (rdd : List (Nat × NDArr)) :
    List (List Nat × List (PartitioningKey × NDArr)) :=
  sortByB (fun g h => tupLe g.1.reverse h.1.reverse)
    (groupByKey (fun fr => fr.1.spatialKey) (rdd.flatMap bound.blockingFunction))

/-- The Blocks collection returned by `toBlocks`: the combined block
records, the Blocks subclass chosen by the strategy, and the `dims`,
`nimages` and `dtype` carried forward from the source collection. -/
structure Blocks where
  rdd : List BlockRecord
  blocksClass : BlocksClass
  dims : List Nat
  nimages : Nat
  dtype : String
  deriving DecidableEq, Repr

/-- `Images.toBlocks` (lines 64 to 110 of images.py).  The Boolean in the
result records whether the oversized-average-block warning was printed
(`avgSize >= maxBlockSize`); `maxBlockSize` stands for the configurable
class constant `BlockingStrategy.DEFAULT_MAX_BLOCK_SIZE`. -/
def Images.toBlocks (im : Images) (spec : BlockSizeSpec) (padding : Padding)
    (maxBlockSize : Nat) : Except Err (Blocks × Bool) :=
  match pickStrategy im spec padding with
  | .error e => .error e
  | .ok strat =>
    match im.imagesMeta with
    | .error e => .error e
    | .ok meta =>
      let bound := strat.bind meta
      let warned := decide (bound.avgBlockSize ≥ maxBlockSize)
      match mapME bound.combiningFunction (blockGroups bound im.rdd) with
      | .error e => .error e
      | .ok blockedvals =>
        .ok ({ rdd := blockedvals, blocksClass := bound.blocksClass,
               dims := meta.dims, nimages := meta.nimages, dtype := meta.dtype },
             warned)

/-- `Images.toSeries` (line 130 of images.py):
`self.toBlocks(blockSizeSpec).toSeries()`, with `toBlocks` run at its
default padding of 0.  `Blocks.toSeries` belongs to the downstream consumer
outside the core, so it is abstracted as the function argument `bts`; the
printed warning flag is not part of the Python return value and is
dropped. -/
def Images.toSeries {σ : Type} (bts : Blocks → σ) (im : Images)
    (spec : BlockSizeSpec) (maxBlockSize : Nat) : Except Err σ :=
  (im.toBlocks spec (.int 0) maxBlockSize).map fun p => bts p.1

/-! ## Projections and subsampling -/

/-- `Images.maxProjection` (lines 211 to 228): validate the axis against the
rank of `dims` (raising when `axis >= size(self.dims)`), lazily map `amax`
over the records and cache the dims with the projected axis removed. -/
def Images.maxProjection (im : Images) (axis : Nat) : Except Err Images :=
  match im.dimsGet with
  | .error e => .error e
  | .ok (dims, im₂) =>
    if axis ≥ dims.length then .error .projectionAxisError
    else
      .ok { rdd := im₂.rdd.map fun r => (r.1, amaxAlong r.2 axis),
            _dims := some (dims.eraseIdx axis),
            _nimages := im₂._nimages, _dtype := im₂._dtype }

/-- `Images.maxminProjection` (lines 230 to 245): no explicit axis check.
The Spark `mapValues` on line 241 is lazy (it schedules no per-record work),
so the first thing that can fail is `del newdims[axis]` on line 244, which
raises an IndexError at call time when the axis is out of range. -/
def Images.maxminProjection (im : Images) (axis : Nat) : Except Err Images :=
  match im.dimsGet with
  | .error e => .error e
  | .ok (dims, im₂) =>
    let proj := im₂.rdd.map fun r => (r.1, amaxminAlong r.2 axis)
    if axis ≥ dims.length then .error .indexError
    else
      .ok { rdd := proj,
            _dims := some (dims.eraseIdx axis),
            _nimages := im₂._nimages, _dtype := im₂._dtype }

/-- The Python `samplefactor` argument: a plain integer or a per-axis
tuple. -/
inductive SampleFactor where
  | int : Int → SampleFactor
  | tup : List Int → SampleFactor
  deriving DecidableEq, Repr

/-- `Images.subsample` (lines 247 to 271): broadcast a scalar factor over
every axis, reject non-positive factors, build the strided slices
`slice(0, dims i, factor i)` and cache `dims i / factor i` (integer
division, per the source comment) as the new dims. -/
def Images.subsample (im : Images) (samplefactor : SampleFactor) : Except Err Images :=
  match im.dimsGet with
  | .error e => .error e
  | .ok (dims, im₂) =>
    let ndims := dims.length
    let factors :=
      match samplefactor with
      | .int n => List.replicate ndims n
      | .tup l => l
    if factors.any (fun sf => sf ≤ 0) then .error .valueError
    else if factors.length < ndims then .error .indexError
    else
      let fs := (factors.map Int.toNat).take ndims
      let newdims := (dims.zip fs).map fun p => p.1 / p.2
      .ok { rdd := im₂.rdd.map fun r => (r.1, r.2.strideSlice fs),
            _dims := some newdims,
            _nimages := im₂._nimages, _dtype := im₂._dtype }

/-! ## Spatial filters and array aliasing

`gaussianFilter` and `medianFilter` (lines 273 to 339) map a per-image
filter over the records.  Whether the per-record function returns a fresh
array (the 2-D branch) or writes into the record's own array after setting
it writable (the 3-D branch, `im.setflags(write=True)` followed by
plane-wise assignment) is an aliasing question, so for these two methods
the collection is modelled with an explicit array store: records hold
indices into the store, a fresh array is an append, and an in-place write
is an update of an existing slot.  The scipy plane filters
(`gaussian_filter`, `median_filter`) are external collaborators and enter
as the function argument `g`. -/

/-- An Images collection with its arrays held in an explicit store:
`rdd` pairs each image key with the index of its array in `store`. -/
structure HImages where
  store : List NDArr
  rdd : List (Nat × Nat)
  dims : List Nat
  deriving DecidableEq, Repr

/-- The 2-D plane `a[:, :, z]` of a 3-D array. -/
def NDArr.planeAt (a : NDArr) (z : Nat) : NDArr :=
  let shape2 := a.shape.take 2
  { dtype := a.dtype, shape := shape2,
    data := (multiIndices shape2).map fun idx => a.get (idx ++ [z]) }

/-- Assignment `a[:, :, z] = p` on a 3-D array. -/
def NDArr.writePlane (a : NDArr) (z : Nat) (p : NDArr) : NDArr :=
  { a with data := (multiIndices a.shape).map fun idx =>
      if idx.getLast? = some z then p.get idx.dropLast else a.get idx }

/-- The 3-D filter loop of lines 298 to 302 and 332 to 336: for each plane
`z` in turn, read `im[:, :, z]` from the (partially updated) array, filter
it, and assign it back. -/
def filter3dInPlace (g : NDArr → NDArr) (dims : List Nat) (a : NDArr) : NDArr :=
  (List.range (dims.getD 2 0)).foldl (fun acc z => acc.writePlane z (g (acc.planeAt z))) a

/-- `Images.gaussianFilter` (lines 273 to 305) over the store-based
collection: on 2-D data every record gets a freshly allocated filtered
array (appended to the store; the original slots are untouched); on 3-D
data the filtered planes are written into each record's own array slot and
the records keep pointing at the same slots.  For any other rank the local
`filter` name is undefined and the job fails with a NameError. -/
def HImages.gaussianFilter (g : NDArr → NDArr) (im : HImages) : Except Err HImages :=
  let ndims := im.dims.length
  if ndims = 2 then
    .ok { store := im.store ++ im.rdd.map fun r => g (im.store.getD r.2 default),
          rdd := im.rdd.enum.map fun p => (p.2.1, im.store.length + p.1),
          dims := im.dims }
  else if ndims = 3 then
    .ok { store := im.rdd.foldl
            (fun st r => st.set r.2 (filter3dInPlace g im.dims (st.getD r.2 default)))
            im.store,
          rdd := im.rdd, dims := im.dims }
  else .error .nameError

/-- `Images.medianFilter` (lines 307 to 339): identical structure to
`gaussianFilter` with the median plane filter in place of the gaussian
one. -/
def HImages.medianFilter (g : NDArr → NDArr) (im : HImages) : Except Err HImages :=
  let ndims := im.dims.length
  if ndims = 2 then
    .ok { store := im.store ++ im.rdd.map fun r => g (im.store.getD r.2 default),
          rdd := im.rdd.enum.map fun p => (p.2.1, im.store.length + p.1),
          dims := im.dims }
  else if ndims = 3 then
    .ok { store := im.rdd.foldl
            (fun st r => st.set r.2 (filter3dInPlace g im.dims (st.getD r.2 default)))
            im.store,
          rdd := im.rdd, dims := im.dims }
  else .error .nameError

/-! ## Concrete inputs used by witnesses and counterexamples -/

/-- A 1-D two-voxel image array. -/
def arrW : NDArr := { dtype := "uint8", shape := [2], data := [3, 7] }

/-- A two-image collection over `arrW`, with empty metadata caches. -/
def imgW : Images := { rdd := [(0, arrW), (1, { arrW with data := [1, 5] })] }

/-- A 1-D five-voxel image array, for the subsample counterexample. -/
def arr5 : NDArr := { dtype := "uint8", shape := [5], data := [0, 1, 2, 3, 4] }

/-- A one-image collection of shape (5,). -/
def img5 : Images := { rdd := [(0, arr5)] }

/-- A 2-by-2 image, rank 2, for the projection claims. -/
def arr22 : NDArr := { dtype := "uint8", shape := [2, 2], data := [1, 2, 3, 4] }

/-- A one-image rank-2 collection. -/
def img22 : Images := { rdd := [(0, arr22)] }

/-- A pre-built padded strategy instance (one split on each of two axes,
halo of one voxel). -/
def stratP : BlockingStrategy :=
  { variant := .padded, splitsPerDim := [1, 1], padding := .int 1 }

/-- A store-based 3-D one-record collection of shape (1, 1, 1). -/
def him3 : HImages :=
  { store := [{ dtype := "float64", shape := [1, 1, 1], data := [5] }],
    rdd := [(0, 0)], dims := [1, 1, 1] }

/-- A store-based 2-D one-record collection of shape (1, 2). -/
def him2 : HImages :=
  { store := [{ dtype := "float64", shape := [1, 2], data := [5, 6] }],
    rdd := [(0, 0)], dims := [1, 2] }

/-- A concrete stand-in for the external scipy plane filter: adds one to
every element (any function with an observable effect does). -/
def gInc : NDArr → NDArr := fun p => { p with data := p.data.map fun x => x + 1 }

/-- The strategy that `toBlocks` picks for `imgW` with spec `(2,)` and zero
padding. -/
def stratW : BlockingStrategy :=
  { variant := .simple, splitsPerDim := [2], padding := .int 0 }

/-- The metadata `toBlocks` reads from `imgW`. -/
def metaW : ImagesMeta := { dims := [2], nimages := 2, dtype := "uint8" }

/-- The Blocks collection `toBlocks` produces from `imgW` with spec `(2,)`
and zero padding: two one-voxel blocks, each stacking both images in
ascending image order. -/
def blocksW : Blocks :=
  { rdd := [{ spatialKey := [0], origin := [0], extent := [1], paddedExtent := [1],
              arr := { dtype := "uint8", shape := [2, 1], data := [3, 1] } },
            { spatialKey := [1], origin := [1], extent := [1], paddedExtent := [1],
              arr := { dtype := "uint8", shape := [2, 1], data := [7, 5] } }],
    blocksClass := .simpleBlocks, dims := [2], nimages := 2, dtype := "uint8" }

/-- The strategy that `toBlocks` picks for `imgW` with spec `(2,)` and the
all-zero padding tuple `(0,)`: the padded variant, because a non-empty tuple
is truthy in Python. -/
def stratPW : BlockingStrategy :=
  { variant := .padded, splitsPerDim := [2], padding := .tup [0] }

/-- A collection constructed with an explicit image count, for the cached
branch of the nimages property. -/
def imgN : Images := { rdd := [(0, arrW)], _nimages := some 7 }

/-- The state of `img22` after its first `dims` read populated the caches. -/
def img22c : Images :=
  { rdd := img22.rdd, _dims := some [2, 2], _nimages := none, _dtype := some "uint8" }

/-! ## General lemmas about the Spark list primitives -/

theorem insSorted_perm (le : α → α → Bool) (a : α) (l : List α) :
    (insSorted le a l).Perm (a :: l) := by
  induction l with
  | nil => simp [insSorted]
  | cons b bs ih =>
    simp only [insSorted]
    split
    · exact List.Perm.refl _
    · exact (ih.cons b).trans (List.Perm.swap a b bs)

theorem sortByB_perm (le : α → α → Bool) (l : List α) :
    (sortByB le l).Perm l := by
  induction l with
  | nil => exact List.Perm.refl _
  | cons a as ih => exact (insSorted_perm le a (sortByB le as)).trans (ih.cons a)

theorem insSorted_pairwise (le : α → α → Bool)
    (htot : ∀ a b, le a b = true ∨ le b a = true) (a : α) (l : List α)
    (htr : ∀ x y z, le x y = true → le y z = true → le x z = true)
    (hl : l.Pairwise fun x y => le x y = true) :
    (insSorted le a l).Pairwise fun x y => le x y = true := by
  induction l with
  | nil => simp [insSorted]
  | cons b bs ih =>
    rw [List.pairwise_cons] at hl
    simp only [insSorted]
    split
    · rename_i hab
      refine List.Pairwise.cons ?_ (List.Pairwise.cons hl.1 hl.2)
      intro x hx
      rcases List.mem_cons.mp hx with hx | hx
      · exact hx ▸ hab
      · exact htr a b x hab (hl.1 x hx)
    · rename_i hab
      have hba : le b a = true := (htot a b).resolve_left hab
      refine List.Pairwise.cons ?_ (ih hl.2)
      intro x hx
      have := (insSorted_perm le a bs).mem_iff.mp hx
      rcases List.mem_cons.mp this with hx' | hx'
      · exact hx' ▸ hba
      · exact hl.1 x hx'

theorem sortByB_pairwise (le : α → α → Bool)
    (htot : ∀ a b, le a b = true ∨ le b a = true)
    (htr : ∀ x y z, le x y = true → le y z = true → le x z = true)
    (l : List α) : (sortByB le l).Pairwise fun x y => le x y = true := by
  induction l with
  | nil => simp [sortByB]
  | cons a as ih => exact insSorted_pairwise le htot a (sortByB le as) htr ih

theorem tupLe_total (x y : List Nat) : tupLe x y = true ∨ tupLe y x = true := by
  induction x generalizing y with
  | nil => left; rfl
  | cons a as ih =>
    cases y with
    | nil => right; rfl
    | cons b bs =>
      simp only [tupLe]
      rcases Nat.lt_trichotomy a b with h | h | h
      · left; simp [h]
      · subst h
        simp only [Nat.lt_irrefl, if_false, if_neg]
        exact ih bs
      · right; simp [h, Nat.lt_asymm h]

theorem tupLe_trans (x y z : List Nat) (hxy : tupLe x y = true)
    (hyz : tupLe y z = true) : tupLe x z = true := by
  induction x generalizing y z with
  | nil => rfl
  | cons a as ih =>
    cases y with
    | nil => simp [tupLe] at hxy
    | cons b bs =>
      cases z with
      | nil => simp [tupLe] at hyz
      | cons c cs =>
        simp only [tupLe] at hxy hyz ⊢
        by_cases hab : a < b
        · by_cases hbc : b < c
          · simp [Nat.lt_trans hab hbc]
          · by_cases hcb : c < b
            · simp at hyz; omega
            · have : b = c := by omega
              simp [this ▸ hab]
        · by_cases hba : b < a
          · simp [hab, hba] at hxy
          · have hab' : a = b := by omega
            subst hab'
            simp [Nat.lt_irrefl] at hxy
            by_cases hbc : a < c
            · simp [hbc]
            · by_cases hcb : c < a
              · simp [Nat.lt_asymm, hbc, hcb] at hyz
              · have : a = c := by omega
                subst this
                simp [Nat.lt_irrefl] at hyz ⊢
                exact ih bs cs hxy hyz

theorem mapME_ok_forall2 {f : α → Except ε β} {l : List α} {ys : List β}
    (h : mapME f l = .ok ys) : List.Forall₂ (fun a y => f a = .ok y) l ys := by
  induction l generalizing ys with
  | nil =>
    simp only [mapME] at h
    cases h
    exact List.Forall₂.nil
  | cons a as ih =>
    simp only [mapME] at h
    cases hfa : f a with
    | error e => rw [hfa] at h; exact absurd h (by simp)
    | ok b =>
      rw [hfa] at h
      cases hrest : mapME f as with
      | error e => rw [hrest] at h; exact absurd h (by simp)
      | ok bs =>
        rw [hrest] at h
        cases h
        exact List.Forall₂.cons hfa (ih hrest)

theorem forall2_mem_right {R : α → β → Prop} {l : List α} {ys : List β}
    (h : List.Forall₂ R l ys) {y : β} (hy : y ∈ ys) : ∃ a ∈ l, R a y := by
  induction h with
  | nil => cases hy
  | cons hr _ ih =>
    rcases hy with _ | hy'
    · exact ⟨_, List.mem_cons_self _ _, hr⟩
    · rcases ih (by assumption) with ⟨a, ha, hra⟩
      exact ⟨a, List.mem_cons_of_mem _ ha, hra⟩

theorem pairwise_transfer {R : α → β → Prop} {P : α → α → Prop} {Q : β → β → Prop}
    {l : List α} {ys : List β} (h : List.Forall₂ R l ys)
    (hl : l.Pairwise P)
    (himp : ∀ a b x y, R a x → R b y → P a b → Q x y) : ys.Pairwise Q := by
  induction h with
  | nil => exact List.Pairwise.nil
  | cons hr htail ih =>
    rw [List.pairwise_cons] at hl
    refine List.Pairwise.cons ?_ (ih hl.2)
    intro y hy
    rcases forall2_mem_right htail hy with ⟨b, hb, hrb⟩
    exact himp _ b _ y hr hrb (hl.1 b hb)

/-- A successful combine returns a block tagged with the spatial key of its
group. -/
theorem combiningFunction_ok_key (bs : BoundStrategy)
    (g : List Nat × List (PartitioningKey × NDArr)) (r : BlockRecord)
    (h : bs.combiningFunction g = .ok r) : r.spatialKey = g.1 := by
  simp only [BoundStrategy.combiningFunction] at h
  split at h
  · exact absurd h (by simp)
  · cases h; rfl

/-! ## Claim theorems -/

/-- Claim C1: toBlocks splits every record independently, groups the
fragments by spatial key, sorts the groups by the reversed spatial-key
tuple only after grouping, and combines each group only after the sort;
hence the sorted group list is a permutation of the grouping (the sort
never changes which fragments share a group), the output blocks are the
combines of the sorted groups in order, and the enumerated blocks carry
reversed-spatial-key tuples in lexicographically sorted order (so the axis
listed first in the SpatialKey changes fastest). -/
theorem toBlocks_sort_after_group (im : Images) (spec : BlockSizeSpec)
    (padding : Padding) (maxBlockSize : Nat) (strat : BlockingStrategy)
    (meta : ImagesMeta) (b : Blocks) (warned : Bool)
    (hs : pickStrategy im spec padding = .ok strat)
    (hm : im.imagesMeta = .ok meta)
    (hb : im.toBlocks spec padding maxBlockSize = .ok (b, warned)) :
    (blockGroups (strat.bind meta) im.rdd).Perm
        (groupByKey (fun fr => fr.1.spatialKey)
          (im.rdd.flatMap (strat.bind meta).blockingFunction))
      ∧ mapME (strat.bind meta).combiningFunction (blockGroups (strat.bind meta) im.rdd)
          = .ok b.rdd
      ∧ b.rdd.Pairwise fun r s => tupLe r.spatialKey.reverse s.spatialKey.reverse = true := by
  have hmap : mapME (strat.bind meta).combiningFunction
      (blockGroups (strat.bind meta) im.rdd) = .ok b.rdd := by
    simp only [Images.toBlocks, hs, hm] at hb
    cases hmm : mapME (strat.bind meta).combiningFunction
        (blockGroups (strat.bind meta) im.rdd) with
    | error e => rw [hmm] at hb; exact absurd hb (by simp)
    | ok vals =>
      rw [hmm] at hb
      simp only [Except.ok.injEq, Prod.mk.injEq] at hb
      rw [← hb.1]
  have hgs : (blockGroups (strat.bind meta) im.rdd).Pairwise
      fun g h => tupLe g.1.reverse h.1.reverse = true := by
    unfold blockGroups
    exact sortByB_pairwise
      (fun (g h : List Nat × List (PartitioningKey × NDArr)) => tupLe g.1.reverse h.1.reverse)
      (fun g h => tupLe_total _ _) (fun x y z => tupLe_trans _ _ _) _
  refine ⟨?_, hmap, ?_⟩
  · unfold blockGroups
    exact sortByB_perm _ _
  · refine pairwise_transfer (mapME_ok_forall2 hmap) hgs ?_
    intro g h r s hr hs' hp
    rw [combiningFunction_ok_key _ _ _ hr, combiningFunction_ok_key _ _ _ hs']
    exact hp

/-- Witness for C1: the two-image collection `imgW` split in two along its
single axis. -/
theorem toBlocks_sort_after_group_witness :
    (blockGroups (stratW.bind metaW) imgW.rdd).Perm
        (groupByKey (fun fr => fr.1.spatialKey)
          (imgW.rdd.flatMap (stratW.bind metaW).blockingFunction))
      ∧ mapME (stratW.bind metaW).combiningFunction (blockGroups (stratW.bind metaW) imgW.rdd)
          = .ok blocksW.rdd
      ∧ blocksW.rdd.Pairwise fun r s => tupLe r.spatialKey.reverse s.spatialKey.reverse = true :=
  toBlocks_sort_after_group imgW (.tup [2]) (.int 0) 1000000000 stratW metaW blocksW false
    (by decide) (by decide) (by decide)

/-- Claim C2: a successful toBlocks returns a Blocks collection whose dims,
nimages and dtype are exactly the values of the source collection's three
metadata properties, passed through the pipeline unchanged. -/
theorem toBlocks_metadata_passthrough (im : Images) (spec : BlockSizeSpec)
    (padding : Padding) (maxBlockSize : Nat) (b : Blocks) (warned : Bool)
    (hb : im.toBlocks spec padding maxBlockSize = .ok (b, warned)) :
    im.imagesMeta = .ok { dims := b.dims, nimages := b.nimages, dtype := b.dtype } := by
  simp only [Images.toBlocks] at hb
  cases hs : pickStrategy im spec padding with
  | error e => rw [hs] at hb; exact absurd hb (by simp)
  | ok strat =>
    rw [hs] at hb
    simp only [] at hb
    cases hm : im.imagesMeta with
    | error e => rw [hm] at hb; exact absurd hb (by simp)
    | ok meta =>
      rw [hm] at hb
      simp only [] at hb
      cases hmm : mapME (strat.bind meta).combiningFunction
          (blockGroups (strat.bind meta) im.rdd) with
      | error e => rw [hmm] at hb; exact absurd hb (by simp)
      | ok vals =>
        rw [hmm] at hb
        simp only [Except.ok.injEq, Prod.mk.injEq] at hb
        rw [← hb.1]

/-- Witness for C2 at the two-image collection `imgW`. -/
theorem toBlocks_metadata_passthrough_witness :
    imgW.imagesMeta
      = .ok { dims := blocksW.dims, nimages := blocksW.nimages, dtype := blocksW.dtype } :=
  toBlocks_metadata_passthrough imgW (.tup [2]) (.int 0) 1000000000 blocksW false (by decide)

/-- Claim C3: a blockSizeSpec that is none of the three recognized shapes
(byte-budget string or int, tuple of positive split counts, pre-built
strategy) makes toBlocks raise TypeSpecError, and it does so independently
of the records of the collection, i.e. before any distributed work is
scheduled. -/
theorem toBlocks_unrecognized_spec_error (im : Images) (spec : BlockSizeSpec)
    (padding : Padding) (maxBlockSize : Nat)
    (h : spec.recognizedShape = false) :
    im.toBlocks spec padding maxBlockSize = .error .typeSpecError
      ∧ ∀ rdd₂ : List (Nat × NDArr),
          Images.toBlocks { im with rdd := rdd₂ } spec padding maxBlockSize
            = .error .typeSpecError := by
  have key : ∀ im₂ : Images, Images.toBlocks im₂ spec padding maxBlockSize
      = .error .typeSpecError := by
    intro im₂
    cases spec with
    | str s => simp [BlockSizeSpec.recognizedShape] at h
    | int n => simp [BlockSizeSpec.recognizedShape] at h
    | strat s => simp [BlockSizeSpec.recognizedShape] at h
    | tup t =>
      simp only [BlockSizeSpec.recognizedShape] at h
      simp [Images.toBlocks, pickStrategy, stratCtor, h]
    | other => simp [Images.toBlocks, pickStrategy, stratCtor]
  exact ⟨key im, fun rdd₂ => key _⟩

/-- Witness for C3: a tuple containing a non-positive entry is not a
recognized shape and raises TypeSpecError. -/
theorem toBlocks_unrecognized_spec_error_witness :
    BlockSizeSpec.recognizedShape (.tup [0, 2]) = false
      ∧ imgW.toBlocks (.tup [0, 2]) (.int 0) 1000000000 = .error .typeSpecError :=
  ⟨by decide,
   (toBlocks_unrecognized_spec_error imgW (.tup [0, 2]) (.int 0) 1000000000 (by decide)).1⟩

/-- Claim C5: the oversized-average-block warning never changes the result:
the Blocks part of toBlocks is the same under any warning threshold (in
particular exceeding the threshold neither raises nor aborts), and the
warning fires exactly when the estimated average block size reaches the
threshold. -/
theorem toBlocks_warning_nonfatal (im : Images) (spec : BlockSizeSpec)
    (padding : Padding) (th th' : Nat) :
    (im.toBlocks spec padding th).map Prod.fst
        = (im.toBlocks spec padding th').map Prod.fst
      ∧ ∀ strat meta b warned,
          pickStrategy im spec padding = .ok strat →
          im.imagesMeta = .ok meta →
          im.toBlocks spec padding th = .ok (b, warned) →
          (warned = true ↔ (strat.bind meta).avgBlockSize ≥ th) := by
  constructor
  · simp only [Images.toBlocks]
    cases hs : pickStrategy im spec padding with
    | error e => rfl
    | ok strat =>
      cases hm : im.imagesMeta with
      | error e => rfl
      | ok meta =>
        simp only []
        cases hmm : mapME (strat.bind meta).combiningFunction
            (blockGroups (strat.bind meta) im.rdd) with
        | error e => rfl
        | ok vals => rfl
  · intro strat meta b warned hs hm hb
    simp only [Images.toBlocks, hs, hm] at hb
    cases hmm : mapME (strat.bind meta).combiningFunction
        (blockGroups (strat.bind meta) im.rdd) with
    | error e => rw [hmm] at hb; exact absurd hb (by simp)
    | ok vals =>
      rw [hmm] at hb
      simp only [Except.ok.injEq, Prod.mk.injEq] at hb
      rw [← hb.2]
      simp

/-- Witness for C5: with threshold 1 the warning fires on `imgW`
(average block size 2) and the returned blocks equal those under a huge
threshold. -/
theorem toBlocks_warning_nonfatal_witness :
    (imgW.toBlocks (.tup [2]) (.int 0) 1).map Prod.fst
        = (imgW.toBlocks (.tup [2]) (.int 0) 1000000000).map Prod.fst
      ∧ (true = true ↔ (stratW.bind metaW).avgBlockSize ≥ 1) :=
  ⟨(toBlocks_warning_nonfatal imgW (.tup [2]) (.int 0) 1 1000000000).1,
   (toBlocks_warning_nonfatal imgW (.tup [2]) (.int 0) 1 1).2 stratW metaW blocksW true
     (by decide) (by decide) (by decide)⟩

/-- Claim C6: the nimages property counts the records and caches the count
when the cache is empty, a second read hits the cache without counting,
_resetCounts clears the cache so the next read recounts, and a count
supplied at construction is returned without counting. -/
theorem nimages_lazy_count_and_cache (im : Images) :
    (im._nimages = none →
        im.nimagesGet = (im.rdd.length, { im with _nimages := some im.rdd.length }, true))
      ∧ (im._resetCounts).nimagesGet
          = (im.rdd.length, { im with _nimages := some im.rdd.length }, true)
      ∧ (im.nimagesGet.2.1).nimagesGet = (im.nimagesGet.1, im.nimagesGet.2.1, false)
      ∧ ∀ n, im._nimages = some n → im.nimagesGet = (n, im, false) := by
  refine ⟨?_, ?_, ?_, ?_⟩
  · intro h
    simp [Images.nimagesGet, h]
  · simp [Images.nimagesGet, Images._resetCounts]
  · cases h : im._nimages with
    | none => simp [Images.nimagesGet, h]
    | some n => simp [Images.nimagesGet, h]
  · intro n h
    simp [Images.nimagesGet, h]

/-- Witness for C6: `imgW` carries no count (a read counts its two records
and caches 2), `imgN` was built with count 7 (a read returns 7 without
counting). -/
theorem nimages_lazy_count_and_cache_witness :
    imgW._nimages = none
      ∧ imgW.nimagesGet = (imgW.rdd.length, { imgW with _nimages := some imgW.rdd.length }, true)
      ∧ imgN._nimages = some 7
      ∧ imgN.nimagesGet = (7, imgN, false) :=
  ⟨rfl, (nimages_lazy_count_and_cache imgW).1 rfl, rfl,
   (nimages_lazy_count_and_cache imgN).2.2.2 7 rfl⟩

/-- Every strategy built by the toBlocks dispatch (as opposed to an instance
passed in directly) carries the variant chosen by line 87. -/
theorem pickStrategy_variant (im : Images) (spec : BlockSizeSpec) (padding : Padding)
    (strat : BlockingStrategy) (hns : ∀ s, spec ≠ .strat s)
    (h : pickStrategy im spec padding = .ok strat) :
    strat.variant = stratClassFor padding := by
  cases spec with
  | strat s => exact absurd rfl (hns s)
  | str s =>
    simp only [pickStrategy, generateFromBlockSize] at h
    cases hm : im.imagesMeta with
    | error e => rw [hm] at h; exact absurd h (by simp [Except.map])
    | ok m =>
      rw [hm] at h
      simp only [Except.map, Except.ok.injEq] at h
      rw [← h]
  | int n =>
    simp only [pickStrategy, generateFromBlockSize] at h
    cases hm : im.imagesMeta with
    | error e => rw [hm] at h; exact absurd h (by simp [Except.map])
    | ok m =>
      rw [hm] at h
      simp only [Except.map, Except.ok.injEq] at h
      rw [← h]
  | tup t =>
    simp only [pickStrategy, stratCtor] at h
    split at h
    · simp only [Except.ok.injEq] at h
      rw [← h]
    · exact absurd h (by simp)
  | other => simp [pickStrategy, stratCtor] at h

/-- Counterexample to claim C4: the all-zero padding tuple `(0,)` is a
non-empty tuple, hence truthy in Python, so line 87 selects the padded
strategy class, not the Simple one the claim requires; end to end, toBlocks
returns the padded Blocks subclass. -/
theorem zero_tuple_padding_selects_padded :
    Padding.pyTruthy (.tup [0]) = true
      ∧ pickStrategy imgW (.tup [2]) (.tup [0]) = .ok stratPW
      ∧ stratPW.variant = .padded
      ∧ (imgW.toBlocks (.tup [2]) (.tup [0]) 1000000000).map (fun p => p.1.blocksClass)
          = .ok .paddedBlocks :=
  ⟨rfl, by decide, rfl, by decide⟩

/-- Claim C4 amended: for a blockSizeSpec that is not a pre-built strategy
instance, the Simple variant is selected iff the padding argument is falsy
as a Python value, and falsy means exactly the integer 0 or the empty
tuple — a non-empty tuple selects the padded variant even when all its
entries are zero. -/
theorem strategy_variant_selection (im : Images) (spec : BlockSizeSpec)
    (padding : Padding) (strat : BlockingStrategy)
    (hns : ∀ s, spec ≠ .strat s)
    (h : pickStrategy im spec padding = .ok strat) :
    (strat.variant = .simple ↔ padding.pyTruthy = false)
      ∧ (padding.pyTruthy = false ↔ padding = .int 0 ∨ padding = .tup []) := by
  have hv := pickStrategy_variant im spec padding strat hns h
  constructor
  · rw [hv]
    unfold stratClassFor
    cases hp : padding.pyTruthy <;> simp
  · cases padding with
    | int n =>
      simp only [Padding.pyTruthy, bne_eq_false_iff_eq, Padding.int.injEq]
      constructor
      · intro hn; exact Or.inl hn
      · rintro (hn | hn)
        · exact hn
        · cases hn
    | tup l =>
      simp only [Padding.pyTruthy, Bool.not_eq_false', List.isEmpty_iff, Padding.tup.injEq]
      constructor
      · intro hl; exact Or.inr hl
      · rintro (hl | hl)
        · cases hl
        · exact hl

/-- Witness for C4 amended, at the truthy all-zero tuple `(0,)`. -/
theorem strategy_variant_selection_witness :
    (stratPW.variant = .simple ↔ Padding.pyTruthy (.tup [0]) = false)
      ∧ (Padding.pyTruthy (.tup [0]) = false
          ↔ Padding.tup [0] = .int 0 ∨ Padding.tup [0] = .tup []) :=
  strategy_variant_selection imgW (.tup [2]) (.tup [0]) stratPW
    (fun s h => BlockSizeSpec.noConfusion h) (by decide)

/-- When the stride divides the axis size, the strided-slice length
(ceiling) coincides with the floor division the source caches. -/
theorem sliceLen_of_dvd (s f : Nat) (hf : 0 < f) (hd : f ∣ s) :
    numpySliceLen s f = s / f := by
  obtain ⟨k, rfl⟩ := hd
  unfold numpySliceLen
  rw [Nat.mul_div_cancel_left k hf]
  have h1 : f * k + f - 1 = (f - 1) + f * k := by omega
  rw [h1, Nat.add_mul_div_left _ _ hf, Nat.div_eq_of_lt (by omega)]
  omega

/-- Counterexample to claim C7: subsampling a 5-voxel axis by factor 2
caches dims (2,) (floor division, line 268) while the strided record arrays
have shape (3,) (numpy slice length is the ceiling), so the cached axis
size does not equal the actual length of the strided slice. -/
theorem subsample_cached_dims_mismatch :
    (img5.subsample (.int 2)).map (fun j => (j._dims, j.rdd.map fun r => r.2.shape))
        = .ok (some [2], [[3]])
      ∧ ([2] : List Nat) ≠ [3] :=
  ⟨by decide, by decide⟩

/-- Claim C7 amended: for a collection of uniformly shaped records the dims
property lazily yields the common shape; maxProjection returns a collection
whose cached dims and record shapes are both the common shape with the
projected axis removed; subsample caches the floor division dims i / factor i
while the record arrays get the strided-slice (ceiling) lengths, and the two
agree exactly when every factor divides its axis size. -/
theorem dims_cache_and_geometry_ops (im : Images) (s : List Nat) (axis : Nat)
    (fs : List Nat)
    (hu : ∀ r ∈ im.rdd, r.2.shape = s)
    (hne : im.rdd ≠ [])
    (hc : im._dims = none ∨ im._dims = some s)
    (haxis : axis < s.length)
    (hlen : fs.length = s.length)
    (hpos : ∀ f ∈ fs, 0 < f) :
    (im.dimsGet).map Prod.fst = .ok s
      ∧ (im.maxProjection axis).map (fun j => (j._dims, j.rdd.map fun r => r.2.shape))
          = .ok (some (s.eraseIdx axis), List.replicate im.rdd.length (s.eraseIdx axis))
      ∧ (im.subsample (.tup (fs.map Int.ofNat))).map
            (fun j => (j._dims, j.rdd.map fun r => r.2.shape))
          = .ok (some ((s.zip fs).map fun p => p.1 / p.2),
                 List.replicate im.rdd.length ((s.zip fs).map fun p => numpySliceLen p.1 p.2))
      ∧ ((∀ p ∈ s.zip fs, p.2 ∣ p.1) →
          ((s.zip fs).map fun p => p.1 / p.2)
            = (s.zip fs).map fun p => numpySliceLen p.1 p.2) := by
  obtain ⟨im₂, hdg, hrdd2⟩ :
      ∃ im₂, im.dimsGet = .ok (s, im₂) ∧ im₂.rdd = im.rdd := by
    rcases hc with hc | hc
    · cases hrdd : im.rdd with
      | nil => exact absurd hrdd hne
      | cons r rs =>
        have hshape : r.2.shape = s := hu r (by rw [hrdd]; exact List.mem_cons_self r rs)
        refine ⟨{ im with _dims := some s, _dtype := some r.2.dtype }, ?_, hrdd⟩
        simp [Images.dimsGet, hc, Images.populateParamsFromFirstRecord, hrdd,
          Except.map, hshape]
    · exact ⟨im, by simp [Images.dimsGet, hc], rfl⟩
  have hu₂ : ∀ r ∈ im₂.rdd, r.2.shape = s := by rw [hrdd2]; exact hu
  refine ⟨?_, ?_, ?_, ?_⟩
  · rw [hdg]; rfl
  · simp only [Images.maxProjection, hdg]
    rw [if_neg (by omega)]
    have hshapes : im₂.rdd.map (fun r => (amaxAlong r.2 axis).shape)
        = List.replicate im.rdd.length (s.eraseIdx axis) := by
      rw [List.eq_replicate_iff]
      constructor
      · rw [List.length_map, hrdd2]
      · intro b hb
        rcases List.mem_map.mp hb with ⟨r, hr, rfl⟩
        show r.2.shape.eraseIdx axis = s.eraseIdx axis
        rw [hu₂ r hr]
    simp only [Except.map, Except.ok.injEq, Prod.mk.injEq, List.map_map]
    exact ⟨trivial, hshapes⟩
  · simp only [Images.subsample, hdg]
    have hany : ((fs.map Int.ofNat).any fun sf => decide (sf ≤ 0)) = false := by
      rw [List.any_eq_false]
      intro sf hsf
      rcases List.mem_map.mp hsf with ⟨f, hf, rfl⟩
      have := hpos f hf
      simp only [decide_eq_true_eq, Int.ofNat_eq_natCast]
      omega
    rw [if_neg (by rw [hany]; simp)]
    rw [if_neg (by simp [hlen])]
    have hfs : ((fs.map Int.ofNat).map Int.toNat).take s.length = fs := by
      rw [List.map_map]
      have : (Int.toNat ∘ Int.ofNat) = id := by
        funext n
        simp [Int.toNat_ofNat]
      rw [this, List.map_id, ← hlen, List.take_length]
    rw [hfs]
    have hshapes : im₂.rdd.map (fun r => (r.2.strideSlice fs).shape)
        = List.replicate im.rdd.length ((s.zip fs).map fun p => numpySliceLen p.1 p.2) := by
      rw [List.eq_replicate_iff]
      constructor
      · rw [List.length_map, hrdd2]
      · intro b hb
        rcases List.mem_map.mp hb with ⟨r, hr, rfl⟩
        show (r.2.shape.zip fs).map (fun p => numpySliceLen p.1 p.2)
            = (s.zip fs).map fun p => numpySliceLen p.1 p.2
        rw [hu₂ r hr]
    simp only [Except.map, Except.ok.injEq, Prod.mk.injEq, List.map_map]
    exact ⟨trivial, hshapes⟩
  · intro hdvd
    apply List.map_congr_left
    intro p hp
    obtain ⟨a, f⟩ := p
    have hfpos : 0 < f := hpos f (List.of_mem_zip hp).2
    exact (sliceLen_of_dvd a f hfpos (hdvd (a, f) hp)).symm

/-- Witness for C7 amended at the 2-by-2 one-image collection, projecting
away axis 0 and subsampling both axes by the (dividing) factor 2. -/
theorem dims_cache_and_geometry_ops_witness :
    (img22.dimsGet).map Prod.fst = .ok [2, 2]
      ∧ (img22.maxProjection 0).map (fun j => (j._dims, j.rdd.map fun r => r.2.shape))
          = .ok (some [2], [[2]])
      ∧ (img22.subsample (.tup ([2, 2].map Int.ofNat))).map
            (fun j => (j._dims, j.rdd.map fun r => r.2.shape))
          = .ok (some [1, 1], [[1, 1]]) := by
  have h := dims_cache_and_geometry_ops img22 [2, 2] 0 [2, 2] (by decide) (by decide)
    (Or.inl rfl) (by decide) rfl (by decide)
  exact ⟨h.1, h.2.1, h.2.2.1⟩

theorem getD_set_ne (l : List NDArr) (j i : Nat) (v : NDArr) (h : i ≠ j) :
    (l.set j v).getD i default = l.getD i default := by
  simp [List.getD_eq_getElem?_getD, List.getElem?_set_ne (Ne.symm h)]

theorem getD_set_self (l : List NDArr) (i : Nat) (v : NDArr) (h : i < l.length) :
    (l.set i v).getD i default = v := by
  simp [List.getD_eq_getElem?_getD, List.getElem?_set_self, h]

/-- A fold of in-place slot updates leaves a slot that no record points at
untouched. -/
theorem foldl_set_getD_not_mem (F : NDArr → NDArr) (recs : List (Nat × Nat))
    (st : List NDArr) (i : Nat) (hi : i ∉ recs.map Prod.snd) :
    (recs.foldl (fun st' q => st'.set q.2 (F (st'.getD q.2 default))) st).getD i default
      = st.getD i default := by
  induction recs generalizing st with
  | nil => rfl
  | cons q qs ih =>
    simp only [List.map_cons, List.mem_cons, not_or] at hi
    rw [List.foldl_cons, ih _ hi.2]
    exact getD_set_ne _ _ _ _ hi.1

/-- A fold of in-place slot updates over records with pairwise distinct
array slots overwrites each record's slot with the update of its original
contents. -/
theorem foldl_set_getD_mem (F : NDArr → NDArr) (recs : List (Nat × Nat))
    (st : List NDArr) (r : Nat × Nat) (hr : r ∈ recs)
    (hnd : (recs.map Prod.snd).Nodup) (hlen : r.2 < st.length) :
    (recs.foldl (fun st' q => st'.set q.2 (F (st'.getD q.2 default))) st).getD r.2 default
      = F (st.getD r.2 default) := by
  induction recs generalizing st with
  | nil => cases hr
  | cons q qs ih =>
    simp only [List.map_cons, List.nodup_cons] at hnd
    rw [List.foldl_cons]
    rcases List.mem_cons.mp hr with heq | hr2
    · subst heq
      rw [foldl_set_getD_not_mem F qs _ _ hnd.1]
      exact getD_set_self _ _ _ hlen
    · have hne : r.2 ≠ q.2 := by
        intro hcontra
        exact hnd.1 (hcontra ▸ (List.mem_map.mpr ⟨r, hr2, rfl⟩))
      rw [ih _ hr2 hnd.2 (by rw [List.length_set]; exact hlen)]
      rw [getD_set_ne _ _ _ _ hne]

/-- Counterexample to claim C8: on 3-D data, gaussianFilter writes the
filtered planes back into the source record's own array (after
`setflags(write=True)`), so the original collection's array slot changes:
with a plane filter that adds one, the stored array goes from data `[5]` to
data `[6]`. -/
theorem gaussianFilter_mutates_3d_source :
    (him3.gaussianFilter gInc).map (fun j => j.store.getD 0 default)
        = .ok { dtype := "float64", shape := [1, 1, 1], data := [6] }
      ∧ him3.store.getD 0 default
          ≠ { dtype := "float64", shape := [1, 1, 1], data := [6] } :=
  ⟨by decide, by decide⟩

/-- Claim C8 amended: on 2-D data both filters allocate fresh output arrays
and leave every source array slot unchanged; on 3-D data both filters keep
the records pointing at their original slots and overwrite each such slot
in place with the plane-filtered contents. -/
theorem filters_mutation_behavior (g : NDArr → NDArr) (im : HImages) (r : Nat × Nat)
    (hr : r ∈ im.rdd) (hnd : (im.rdd.map Prod.snd).Nodup) (hlen : r.2 < im.store.length) :
    (im.dims.length = 2 →
        (im.gaussianFilter g).map (fun j => j.store.take im.store.length) = .ok im.store
          ∧ (im.medianFilter g).map (fun j => j.store.take im.store.length) = .ok im.store)
      ∧ (im.dims.length = 3 →
          (im.gaussianFilter g).map (fun j => (j.rdd, j.store.getD r.2 default))
              = .ok (im.rdd, filter3dInPlace g im.dims (im.store.getD r.2 default))
            ∧ (im.medianFilter g).map (fun j => (j.rdd, j.store.getD r.2 default))
              = .ok (im.rdd, filter3dInPlace g im.dims (im.store.getD r.2 default))) := by
  constructor
  · intro h2
    constructor <;>
    · simp only [HImages.gaussianFilter, HImages.medianFilter, h2]
      rw [if_pos trivial]
      simp only [Except.map, Except.ok.injEq]
      exact List.take_left _ _
  · intro h3
    have key : ∀ res : Except Err HImages,
        res = .ok { store := im.rdd.foldl
                      (fun st q => st.set q.2 (filter3dInPlace g im.dims (st.getD q.2 default)))
                      im.store,
                    rdd := im.rdd, dims := im.dims } →
        res.map (fun j => (j.rdd, j.store.getD r.2 default))
          = .ok (im.rdd, filter3dInPlace g im.dims (im.store.getD r.2 default)) := by
      intro res hres
      rw [hres]
      simp only [Except.map, Except.ok.injEq, Prod.mk.injEq]
      exact ⟨trivial, foldl_set_getD_mem _ im.rdd im.store r hr hnd hlen⟩
    constructor
    · exact key _ (by simp [HImages.gaussianFilter, h3])
    · exact key _ (by simp [HImages.medianFilter, h3])

/-- Witness for C8 amended: the 2-D collection `him2` keeps its stored
array intact, the 3-D collection `him3` has its stored array overwritten
with the plane-filtered contents. -/
theorem filters_mutation_behavior_witness :
    (him2.gaussianFilter gInc).map (fun j => j.store.take him2.store.length) = .ok him2.store
      ∧ (him3.gaussianFilter gInc).map (fun j => (j.rdd, j.store.getD 0 default))
          = .ok (him3.rdd, filter3dInPlace gInc him3.dims (him3.store.getD 0 default)) :=
  ⟨((filters_mutation_behavior gInc him2 (0, 0) (by decide) (by decide) (by decide)).1 rfl).1,
   ((filters_mutation_behavior gInc him3 (0, 0) (by decide) (by decide) (by decide)).2 rfl).1⟩

/-- Counterexample to claim C9: with rank-2 data and axis 2,
maxminProjection IS rejected at call time.  The Spark mapValues on line 241
is lazy and schedules no per-record work, so `del newdims[2]` on line 244
raises an IndexError during the call itself; the embedding returns the
error independently of the record arrays (shown here on two collections
holding different data). -/
theorem maxminProjection_rejects_at_call_time :
    img22.maxminProjection 2 = .error .indexError
      ∧ Images.maxminProjection { rdd := [(0, { arr22 with data := [9, 9, 9, 9] })] } 2
          = .error .indexError :=
  ⟨by decide, by decide⟩

/-- Claim C9 amended: maxProjection validates the axis explicitly and
raises at call time when axis is at least the rank; maxminProjection has no
explicit validation but still fails at call time with an IndexError when
deleting the out-of-range axis from the dims list (the lazy mapValues
schedules no per-record work first); on success both return a collection
whose cached dims are the source dims with the projected axis removed. -/
theorem projection_axis_validation (im : Images) (axis : Nat) (dims : List Nat)
    (im₂ : Images) (hd : im.dimsGet = .ok (dims, im₂)) :
    (axis ≥ dims.length →
        im.maxProjection axis = .error .projectionAxisError
          ∧ im.maxminProjection axis = .error .indexError)
      ∧ (axis < dims.length →
          (im.maxProjection axis).map (fun j => j._dims) = .ok (some (dims.eraseIdx axis))
            ∧ (im.maxminProjection axis).map (fun j => j._dims)
                = .ok (some (dims.eraseIdx axis))) := by
  constructor
  · intro hge
    constructor
    · simp only [Images.maxProjection, hd]
      rw [if_pos hge]
    · simp only [Images.maxminProjection, hd]
      rw [if_pos hge]
  · intro hlt
    constructor
    · simp only [Images.maxProjection, hd]
      rw [if_neg (by omega)]
      rfl
    · simp only [Images.maxminProjection, hd]
      rw [if_neg (by omega)]
      rfl

/-- Witness for C9 amended at the rank-2 collection: axis 0 succeeds with
the axis removed from dims, axis 2 fails at call time in both operations
(with the two different exceptions). -/
theorem projection_axis_validation_witness :
    (img22.maxProjection 0).map (fun j => j._dims) = .ok (some [2])
      ∧ (img22.maxminProjection 0).map (fun j => j._dims) = .ok (some [2])
      ∧ img22.maxProjection 2 = .error .projectionAxisError
      ∧ img22.maxminProjection 2 = .error .indexError := by
  have h0 := (projection_axis_validation img22 0 [2, 2] img22c (by decide)).2 (by decide)
  have h2 := (projection_axis_validation img22 2 [2, 2] img22c (by decide)).1 (by decide)
  exact ⟨h0.1, h0.2, h2.1, h2.2⟩

/-- Counterexample to claim C10 (the part saying toSeries offers no way to
request a padded strategy): passing a pre-built PaddedBlockingStrategy
instance as blockSizeSpec makes the toSeries pipeline produce blocks of the
padded Blocks subclass. -/
theorem toSeries_padded_strategy_possible :
    (Images.toSeries (fun b => b) img22 (.strat stratP) 1000000000).map Blocks.blocksClass
      = .ok .paddedBlocks := by decide

/-- Claim C10 amended (composition part, which holds): toSeries is exactly
toBlocks at the default padding 0 followed by the downstream consumer of
the resulting Blocks; the padding parameter itself is not exposed, though a
padded strategy can still be requested through a pre-built strategy
instance. -/
theorem toSeries_composition {σ : Type} (bts : Blocks → σ) (im : Images)
    (spec : BlockSizeSpec) (maxBlockSize : Nat) :
    im.toSeries bts spec maxBlockSize
      = (im.toBlocks spec (.int 0) maxBlockSize).map fun p => bts p.1 := rfl
